import Mathlib

/-!
Verification development for the MedicalImageConverter repository.

The definitions below are shallow embeddings of the Python source:
  - ReadClasses/dicom.py   (class Image3d, class DicomReader)
  - Data/image.py          (class Image, the pixel/physical matrix pair)
  - conversion.py          (class ContourToMask)
  - src/reader.py          (class DicomReader.create_masks)
Floating point numbers are modelled by exact rationals; numpy arrays by
lists and by functions out of index types; the cv2 polygon fill primitive
is an external collaborator and is kept as an explicit function parameter.
-/

namespace MIC

/-- A 3d physical or pixel coordinate, one rational per axis. -/
structure Vec3 where
  x : ℚ
  y : ℚ
  z : ℚ
deriving DecidableEq

/-- Zero vector, used as the default for list lookups. -/
def v0 : Vec3 := ⟨0, 0, 0⟩

/-- Componentwise sum. -/
def addV (a b : Vec3) : Vec3 := ⟨a.x + b.x, a.y + b.y, a.z + b.z⟩

/-- Scalar multiple. -/
def smulV (s : ℚ) (a : Vec3) : Vec3 := ⟨s * a.x, s * a.y, s * a.z⟩

/-- Componentwise division by a scalar, mirrors numpy row division. -/
def divV (a : Vec3) (s : ℚ) : Vec3 := ⟨a.x / s, a.y / s, a.z / s⟩

/-- Dot product, mirrors np.dot on 3-vectors. -/
def dot (a b : Vec3) : ℚ := a.x * b.x + a.y * b.y + a.z * b.z

/-- Cross product, mirrors np.cross on 3-vectors. -/
def cross (a b : Vec3) : Vec3 :=
  ⟨a.y * b.z - a.z * b.y, a.z * b.x - a.x * b.z, a.x * b.y - a.y * b.x⟩

/-- The six direction cosine components of the ImageOrientationPatient tag,
in tag order: first three for the row axis, last three for the column axis. -/
structure Orient6 where
  o0 : ℚ
  o1 : ℚ
  o2 : ℚ
  o3 : ℚ
  o4 : ℚ
  o5 : ℚ
deriving DecidableEq

/-- orientation[:3] in Image3d._compute_image_matrix. -/
def rowDir (o : Orient6) : Vec3 := ⟨o.o0, o.o1, o.o2⟩

/-- orientation[3:] in Image3d._compute_image_matrix. -/
def colDir (o : Orient6) : Vec3 := ⟨o.o3, o.o4, o.o5⟩

/-- The three per-axis sums of absolute orientation components computed both
in Image3d._compute_plane and in DicomReader.separate_modalities_and_images:
x gets abs(orientation[0]) + abs(orientation[3]) and so on. -/
def axisSumX (o : Orient6) : ℚ := |o.o0| + |o.o3|

/-- See axisSumX; the y sum uses components 1 and 4. -/
def axisSumY (o : Orient6) : ℚ := |o.o1| + |o.o4|

/-- See axisSumX; the z sum uses components 2 and 5. -/
def axisSumZ (o : Orient6) : ℚ := |o.o2| + |o.o5|

/-- The per-axis sum indexed by a physical axis number. -/
def axisSum (o : Orient6) : Fin 3 → ℚ
  | 0 => axisSumX o
  | 1 => axisSumY o
  | 2 => axisSumZ o

/-- Image3d._compute_plane from ReadClasses/dicom.py: compare the three
axis sums and classify the slice plane. -/
def computePlane (o : Orient6) : String :=
  if axisSumX o < axisSumY o ∧ axisSumX o < axisSumZ o then "Sagittal"
  else if axisSumY o < axisSumX o ∧ axisSumY o < axisSumZ o then "Coronal"
  else "Axial"

/-- The branch structure selecting the sort axis in
DicomReader.separate_modalities_and_images, lines 113-122 of
ReadClasses/dicom.py: identical comparisons to _compute_plane, returning
the physical axis index used for argsort of the slice positions. -/
def dominantAxis (o : Orient6) : Fin 3 :=
  if axisSumX o < axisSumY o ∧ axisSumX o < axisSumZ o then 0
  else if axisSumY o < axisSumX o ∧ axisSumY o < axisSumZ o then 1
  else 2

/-- Component of a position along a physical axis, mirrors
position_tags[:, k] indexing. -/
def posComp (a : Fin 3) (v : Vec3) : ℚ :=
  match a with
  | 0 => v.x
  | 1 => v.y
  | 2 => v.z

/-- One slice record inside an orientation sub-group: its
ImagePositionPatient value plus an opaque payload standing for the rest of
the dataset, so that permutations are observable. -/
structure SliceRec where
  pos : Vec3
  payload : ℕ
deriving DecidableEq

/-- The argsort-and-reindex step at the end of
DicomReader.separate_modalities_and_images: order the slices of one
orientation sub-group by ascending position along the dominant axis. -/
def sortSlices (o : Orient6) (slices : List SliceRec) : List SliceRec :=
  slices.mergeSort fun s t =>
    decide (posComp (dominantAxis o) s.pos ≤ posComp (dominantAxis o) t.pos)

/-- slice_direction in Image3d._compute_image_matrix:
np.cross(row_direction, column_direction). -/
def sliceDirection (o : Orient6) : Vec3 := cross (rowDir o) (colDir o)

/-- Projection of an ImagePositionPatient value onto the through-plane
axis, np.dot(slice_direction, position). -/
def projPos (o : Orient6) (p : Vec3) : ℚ := dot (sliceDirection o) p

/-- The through-plane spacing refinement of Image3d._compute_image_matrix,
lines 310-322 of ReadClasses/dicom.py: project the first, second and last
slice positions, compare the first gap with the uniform gap, and pick the
measured spacing; with fewer than two slices the nominal thickness stays. -/
def spacingRefined (o : Orient6) (ips : List Vec3) (thickness : ℚ) : ℚ :=
  if 1 < ips.length then
    let first := projPos o (ips.getD 0 v0)
    let second := projPos o (ips.getD 1 v0)
    let last := projPos o (ips.getLastD v0)
    let firstLastSpacing := (last - first) / ((ips.length : ℚ) - 1)
    if |(second - first) - firstLastSpacing| > 1 / 100 then second - first
    else firstLastSpacing
  else thickness

/-- A 3 by 3 matrix stored as its three rows. -/
structure Mat3 where
  r0 : Vec3
  r1 : Vec3
  r2 : Vec3
deriving DecidableEq

/-- The top-left 3 by 3 rotation block built by
Image3d._compute_image_matrix: rows are the row direction, the column
direction and their cross product (the through-plane direction). -/
def rotationRows (o : Orient6) : Mat3 :=
  ⟨rowDir o, colDir o, sliceDirection o⟩

/-- Image.compute_matrix_position_to_pixel from Data/image.py applied to a
physical point: the rows of the stored rotation matrix are divided by the
per-axis spacing, the translation is origin.dot(-matrix.T), and the code
multiplies the homogeneous point with the transpose of the assembled 4x4,
which evaluates to dot products against the scaled rows. -/
def positionToPixel (M : Mat3) (sp origin q : Vec3) : Vec3 :=
  let d0 := divV M.r0 sp.x
  let d1 := divV M.r1 sp.y
  let d2 := divV M.r2 sp.z
  ⟨dot d0 q - dot d0 origin, dot d1 q - dot d1 origin, dot d2 q - dot d2 origin⟩

/-- Image.compute_matrix_pixel_to_position from Data/image.py applied to a
pixel index: column j of the assembled 4x4 is matrix row j scaled by
spacing[j], the fourth column is the origin. -/
def pixelToPosition (M : Mat3) (sp origin p : Vec3) : Vec3 :=
  addV (addV (addV (smulV (p.x * sp.x) M.r0) (smulV (p.y * sp.y) M.r1))
    (smulV (p.z * sp.z) M.r2)) origin

/-- The 4x4 matrix assembled at the end of Image3d._compute_image_matrix:
np.identity(4) with rows 0..2 of the first three columns overwritten by
row, column and slice direction and the first three entries of the last
column overwritten by the negated origin. -/
def imageMatrix (o : Orient6) (origin : Vec3) : Fin 4 → Fin 4 → ℚ :=
  fun i j =>
    match i, j with
    | 0, 0 => (rowDir o).x
    | 0, 1 => (rowDir o).y
    | 0, 2 => (rowDir o).z
    | 0, 3 => -origin.x
    | 1, 0 => (colDir o).x
    | 1, 1 => (colDir o).y
    | 1, 2 => (colDir o).z
    | 1, 3 => -origin.y
    | 2, 0 => (sliceDirection o).x
    | 2, 1 => (sliceDirection o).y
    | 2, 2 => (sliceDirection o).z
    | 2, 3 => -origin.z
    | 3, 0 => 0
    | 3, 1 => 0
    | 3, 2 => 0
    | 3, 3 => 1

/-- A pixel volume: outer list over slices, then rows, then columns, with
signed integer samples (the source casts to int16). -/
abbrev Arr3 : Type := List (List (List ℤ))

/-- One quarter turn of a 2d array, np.rot90 with k = 1: transpose, then
reverse the row order. -/
def rot90 {α : Type} (m : List (List α)) : List (List α) :=
  m.transpose.reverse

/-- np.rot90(array, k, (1, 2)) on a 3d array: rotate every slice k quarter
turns in the row/column plane. -/
def rot3d (k : ℕ) (a : Arr3) : Arr3 :=
  a.map fun sl => rot90^[k] sl

/-- Negation of all six orientation components, the HFP/FFP branch of
Image3d._compute_origin. -/
def negO (o : Orient6) : Orient6 :=
  ⟨-o.o0, -o.o1, -o.o2, -o.o3, -o.o4, -o.o5⟩

/-- Orientation rewrite of the HFDR/FFDR branch of
Image3d._compute_origin: negated column components first, then the row
components. -/
def reorderDR (o : Orient6) : Orient6 :=
  ⟨-o.o3, -o.o4, -o.o5, o.o0, o.o1, o.o2⟩

/-- Orientation rewrite of the HFDL/FFDL branch of
Image3d._compute_origin: column components first, then the negated row
components. -/
def reorderDL (o : Orient6) : Orient6 :=
  ⟨o.o3, o.o4, o.o5, -o.o0, -o.o1, -o.o2⟩

/-- Result record of Image3d._compute_origin: the updated origin and
orientation attributes, the pixel array attribute, and base_position. -/
structure OriginState where
  origin : Vec3
  orientation : Orient6
  array : Option Arr3
  basePosition : Option String

/-- The statement "if self.only_tags: self.array = np.rot90(self.array, k,
(1, 2))" inside Image3d._compute_origin. Image3d.__init__ assigns
self.array only when only_tags is false, so the attribute access fails
(AttributeError) exactly when the guard is taken, and when the array does
exist the guard skips the rotation. -/
def rotateIfOnlyTags (onlyTags : Bool) (k : ℕ) (arr : Option Arr3) :
    Except String (Option Arr3) :=
  if onlyTags then
    match arr with
    | none => .error "AttributeError"
    | some a => .ok (some (rot3d k a))
  else .ok arr

/-- Image3d._compute_origin from ReadClasses/dicom.py. Inputs: the
only_tags flag, the PatientPosition tag of the first slice (none when the
tag is absent), the ImagePositionPatient of the first slice, the spacing,
the dimensions (columns, rows, slices), the orientation, and the pixel
array attribute (none exactly when only_tags is true). -/
def computeOrigin (onlyTags : Bool) (patientPosition : Option String)
    (ipp spacing : Vec3) (dims : ℕ × ℕ × ℕ) (o : Orient6)
    (arr : Option Arr3) : Except String OriginState :=
  match patientPosition with
  | none => .ok ⟨ipp, o, arr, none⟩
  | some p =>
    if p = "HFDR" ∨ p = "FFDR" then
      match rotateIfOnlyTags onlyTags 3 arr with
      | .error e => .error e
      | .ok arr2 =>
          .ok ⟨⟨ipp.x - spacing.x * ((dims.1 : ℚ) - 1), ipp.y, ipp.z⟩,
            reorderDR o, arr2, some p⟩
    else if p = "HFP" ∨ p = "FFP" then
      match rotateIfOnlyTags onlyTags 2 arr with
      | .error e => .error e
      | .ok arr2 =>
          .ok ⟨⟨ipp.x - spacing.x * ((dims.1 : ℚ) - 1),
            ipp.y - spacing.y * ((dims.2.1 : ℚ) - 1), ipp.z⟩,
            negO o, arr2, some p⟩
    else if p = "HFDL" ∨ p = "FFDL" then
      match rotateIfOnlyTags onlyTags 1 arr with
      | .error e => .error e
      | .ok arr2 =>
          .ok ⟨⟨ipp.x, ipp.y - spacing.y * ((dims.2.1 : ℚ) - 1), ipp.z⟩,
            reorderDL o, arr2, some p⟩
    else .ok ⟨ipp, o, arr, some p⟩

/-- The python list.insert operation: insert before the index, clipping
the index to the list length (python clips, it never fails). -/
def pyInsert {α : Type} (n : ℕ) (a : α) (l : List α) : List α :=
  l.take n ++ a :: l.drop n

/-- One 2d slice of samples: rows of columns of signed integers. -/
abbrev Slice2 : Type := List (List ℤ)

/-- np.mean over two int16 slices followed by astype(np.int16): the exact
mean of each sample pair, truncated toward zero (the float mean of two
int16 values is exact, and the int16 cast truncates). -/
def meanSlice (a b : Slice2) : Slice2 :=
  List.zipWith (fun ra rb => List.zipWith (fun x y => Int.tdiv (x + y) 2) ra rb) a b

/-- np.mean(self.array[ii:ii+2], axis=0).astype(np.int16): the slice
selection clips at the array end exactly like python slicing. -/
def interpSlice (arr : List Slice2) (ii : ℕ) : Slice2 :=
  match arr.drop ii with
  | a :: b :: _ => meanSlice a b
  | [a] => a
  | [] => []

/-- The mutable attributes Image3d._find_skipped_slices touches:
unverified, skipped_slice, the depth entry dimensions[2], filepaths, sops
and the pixel array. -/
structure RepairState where
  unverified : Option String
  skippedSlice : Option ℕ
  dims2 : ℤ
  filepaths : List String
  sops : List String
  array : List Slice2
deriving DecidableEq

/-- np.dot(slice_direction, image_set[i].ImagePositionPatient). -/
def slicePos (sd : Vec3) (ips : List Vec3) (i : ℕ) : ℚ :=
  dot sd (ips.getD i v0)

/-- The repair trigger of Image3d._find_skipped_slices at loop index ii:
ii > 0 and the gap to the next slice deviates from base_spacing (the gap
measured at ii = 0) by more than 0.01. -/
def deviates (sd : Vec3) (ips : List Vec3) (ii : ℕ) : Prop :=
  0 < ii ∧
    |(slicePos sd ips 1 - slicePos sd ips 0) -
      (slicePos sd ips (ii + 1) - slicePos sd ips ii)| > 1 / 100

instance (sd : Vec3) (ips : List Vec3) (ii : ℕ) :
    Decidable (deviates sd ips ii) :=
  inferInstanceAs (Decidable (_ ∧ _))

/-- The repair body of Image3d._find_skipped_slices: flag the volume,
record the insertion index ii + 1, bump dimensions[2], insert the
placeholder path and SOP, and insert the interpolated slice. -/
def applyRepair (s : RepairState) (ii : ℕ) : RepairState :=
  { unverified := some "Skipped"
    skippedSlice := some (ii + 1)
    dims2 := s.dims2 + 1
    filepaths := pyInsert (ii + 1) "" s.filepaths
    sops := pyInsert (ii + 1) "1.123456789" s.sops
    array := pyInsert (ii + 1) (interpSlice s.array ii) s.array }

/-- One iteration of the scan loop of Image3d._find_skipped_slices. -/
def repairStep (sd : Vec3) (ips : List Vec3) (s : RepairState) (ii : ℕ) :
    RepairState :=
  if deviates sd ips ii then applyRepair s ii else s

/-- Image3d._find_skipped_slices from ReadClasses/dicom.py: scan the
consecutive slice pairs in order; every pair whose gap deviates from the
first-observed gap runs the repair body (the loop has no early exit). -/
def findSkippedSlices (sd : Vec3) (ips : List Vec3) (s : RepairState) :
    RepairState :=
  (List.range (ips.length - 1)).foldl (repairStep sd ips) s

/-- The list of loop indices of Image3d._find_skipped_slices at which the
repair body runs. -/
def deviatingIndices (sd : Vec3) (ips : List Vec3) : List ℕ :=
  (List.range (ips.length - 1)).filter fun ii => decide (deviates sd ips ii)

/-- python int() on a rational: truncation toward zero, as applied by
int(c[0, 2]) and by the int32 cast of polygon coordinates. -/
def pyInt (q : ℚ) : ℤ := Int.tdiv q.num (q.den : ℤ)

/-- np.round: round half to even, as numpy does. -/
def npRound (q : ℚ) : ℤ :=
  let f := ⌊q⌋
  let r := q - f
  if r < 1 / 2 then f
  else if 1 / 2 < r then f + 1
  else if 2 ∣ f then f else f + 1

/-- The external cv2.fillPoly collaborator, kept abstract: given the
closed integer polygon it decides whether the pixel at (row, column) is
filled. Both rasterization sites of the repository call into it. -/
abbrev Fill : Type := List (ℤ × ℤ) → ℤ → ℤ → Bool

/-- np.vstack((c[:, 0:2], c[0, 0:2])) cast to int32 in
ContourToMask.compute_mask: the in-plane coordinates of every point, then
the first point again, truncated toward zero by the dtype cast. -/
def closedPoly (c : List Vec3) : List (ℤ × ℤ) :=
  (c.map fun p => (pyInt p.x, pyInt p.y)) ++
    [(pyInt (c.headD v0).x, pyInt (c.headD v0).y)]

/-- The loop state of ContourToMask.compute_mask: slice_check and the
accumulation buffer hold_mask, indexed slice, row, column. -/
structure MaskAcc where
  check : ℤ → Bool
  hold : ℤ → ℤ → ℤ → ℕ

/-- One iteration of the contour loop of ContourToMask.compute_mask:
rasterize the closed polygon, pick the slice from the truncated
through-plane coordinate of the first point, then either write the fresh
image into the untouched slice or add it onto the existing slice. -/
def maskStep (fill : Fill) (st : MaskAcc) (c : List Vec3) : MaskAcc :=
  let img : ℤ → ℤ → ℕ := fun r cc => if fill (closedPoly c) r cc then 1 else 0
  let s := pyInt (c.headD v0).z
  if st.check s then
    { check := st.check
      hold := fun s2 r cc =>
        if s2 = s then st.hold s2 r cc + img r cc else st.hold s2 r cc }
  else
    { check := fun s2 => if s2 = s then true else st.check s2
      hold := fun s2 r cc => if s2 = s then img r cc else st.hold s2 r cc }

/-- The accumulated hold_mask after the contour loop of
ContourToMask.compute_mask, starting from the all-zero buffer. -/
def maskAccum (fill : Fill) (cs : List (List Vec3)) : MaskAcc :=
  cs.foldl (maskStep fill) ⟨fun _ => false, fun _ _ _ => 0⟩

/-- ContourToMask.compute_mask from conversion.py: the accumulated buffer
binarized by (hold_mask > 0).astype(np.uint8). -/
def computeMask (fill : Fill) (cs : List (List Vec3)) (s r c : ℤ) : ℕ :=
  if 0 < (maskAccum fill cs).hold s r c then 1 else 0

/-- One entry of an RTSTRUCT ContourSequence as used by
DicomReader.create_masks in src/reader.py: the NumberOfContourPoints tag,
the reshaped ContourData points, and the referenced SOP instance. -/
structure RtContour where
  numberOfContourPoints : ℕ
  contourData : List Vec3
  refSOP : String

/-- np.round(x, 3) applied componentwise to ContourData. -/
def round3 (q : ℚ) : ℚ := (npRound (q * 1000) : ℚ) / 1000

/-- Componentwise np.round(..., 3) on a point. -/
def round3V (p : Vec3) : Vec3 := ⟨round3 p.x, round3 p.y, round3 p.z⟩

/-- contour_indexing in DicomReader.create_masks:
np.round(np.abs((contour - corner_array) / spacing_array)). -/
def idxPoint (corner spacing p : Vec3) : ℤ × ℤ × ℤ :=
  (npRound |(p.x - corner.x) / spacing.x|,
   npRound |(p.y - corner.y) / spacing.y|,
   npRound |(p.z - corner.z) / spacing.z|)

/-- roi_contour in DicomReader.create_masks: the first two indexing
components of every (3-decimal rounded) point, closed with the first
point, cast to int32. -/
def roiPoly (corner spacing : Vec3) (pts : List Vec3) : List (ℤ × ℤ) :=
  (pts.map fun p =>
    ((idxPoint corner spacing (round3V p)).1,
     (idxPoint corner spacing (round3V p)).2.1)) ++
    [((idxPoint corner spacing (round3V (pts.headD v0))).1,
      (idxPoint corner spacing (round3V (pts.headD v0))).2.1)]

/-- The filled grid cells of one rasterized 2d image of shape
rows x columns, row-major. -/
def filledCells (fill : Fill) (poly : List (ℤ × ℤ)) (rows cols : ℕ) :
    List (ℕ × ℕ) :=
  (List.range rows).flatMap fun (r : ℕ) =>
    (List.range cols).filterMap fun (c : ℕ) =>
      if fill poly (r : ℤ) (c : ℤ) then some (r, c) else none

/-- Minimum of an integer list, 0 for the empty list. -/
def listMin (l : List ℤ) : ℤ :=
  match l with
  | [] => 0
  | x :: xs => xs.foldl min x

/-- Maximum of an integer list, 0 for the empty list. -/
def listMax (l : List ℤ) : ℤ :=
  match l with
  | [] => 0
  | x :: xs => xs.foldl max x

/-- cv2.boundingRect on the rasterized image: (x, y, w, h) with x/y the
smallest filled column/row and w/h the extents; all zero for an empty
image. -/
def boundingRect (fill : Fill) (poly : List (ℤ × ℤ)) (rows cols : ℕ) :
    ℤ × ℤ × ℤ × ℤ :=
  let cells := filledCells fill poly rows cols
  match cells with
  | [] => (0, 0, 0, 0)
  | _ =>
    let rs : List ℤ := cells.map fun p => (p.1 : ℤ)
    let csL : List ℤ := cells.map fun p => (p.2 : ℤ)
    (listMin csL, listMin rs, listMax csL - listMin csL + 1,
      listMax rs - listMin rs + 1)

/-- The loop state of one ROIContourSequence pass of
DicomReader.create_masks: slice_check, the mask buffer and the r, col, s
bookkeeping lists. -/
structure RoiAcc where
  check : ℤ → Bool
  mask : ℤ → ℤ → ℤ → ℕ
  rList : List ℤ
  colList : List ℤ
  sList : List ℤ

/-- One iteration of the ContourSequence loop of
DicomReader.create_masks: contours with fewer than two points are skipped
whole; otherwise the polygon is rasterized, written or added onto the
slice selected through the referenced SOP instance, and the bounding
bookkeeping is appended. -/
def roiStep (fill : Fill) (imgSops : List String) (slices rows cols : ℕ)
    (corner spacing : Vec3) (st : RoiAcc) (c : RtContour) : RoiAcc :=
  if 1 < c.numberOfContourPoints then
    let poly := roiPoly corner spacing c.contourData
    let img : ℤ → ℤ → ℕ := fun r cc => if fill poly r cc then 1 else 0
    let sliceNum : ℤ := (slices : ℤ) - ((imgSops.indexOf c.refSOP : ℤ) + 1)
    let st2 :=
      if st.check sliceNum then
        { st with
          mask := fun s2 r cc =>
            if s2 = sliceNum then st.mask s2 r cc + img r cc
            else st.mask s2 r cc }
      else
        { st with
          check := fun s2 => if s2 = sliceNum then true else st.check s2
          mask := fun s2 r cc =>
            if s2 = sliceNum then img r cc else st.mask s2 r cc }
    let br := boundingRect fill poly rows cols
    { st2 with
      rList := st.rList ++ [br.1, br.1 + br.2.2.1]
      colList := st.colList ++ [br.2.1, br.2.1 + br.2.2.2]
      sList := st.sList ++ [sliceNum] }
  else st

/-- The bookkeeping state after the ContourSequence loop of
DicomReader.create_masks, starting from zeroed buffers and empty lists. -/
def roiAccum (fill : Fill) (imgSops : List String) (slices rows cols : ℕ)
    (corner spacing : Vec3) (contours : List RtContour) : RoiAcc :=
  contours.foldl (roiStep fill imgSops slices rows cols corner spacing)
    ⟨fun _ => false, fun _ _ _ => 0, [], [], []⟩

/-- One contribution to mask_reduced in DicomReader.create_masks: the
bounding region [min s, max s + 1, min col, max col, min r, max r] and the
accumulated mask buffer it crops (the stored new_mask is the buffer
restricted to the region; no binarization is applied to it). -/
structure MaskResult where
  region : ℤ × ℤ × ℤ × ℤ × ℤ × ℤ
  mask : ℤ → ℤ → ℤ → ℕ

/-- A sample of the cropped new_mask stored by DicomReader.create_masks:
entry (i, j, k) of the crop is the accumulated buffer at the region
offsets. -/
def newMaskVal (m : MaskResult) (i j k : ℤ) : ℕ :=
  m.mask (m.region.1 + i) (m.region.2.2.1 + j) (m.region.2.2.2.2.1 + k)

/-- The per-structure tail of DicomReader.create_masks: with no recorded
slice the structure contributes nothing; otherwise the region is built
and the crop is kept only when its size exceeds one. -/
def createMasksRoi (fill : Fill) (imgSops : List String)
    (slices rows cols : ℕ) (corner spacing : Vec3)
    (contours : List RtContour) : Option MaskResult :=
  let st := roiAccum fill imgSops slices rows cols corner spacing contours
  match st.sList with
  | [] => none
  | _ =>
    let r0 := listMin st.sList
    let r1 := listMax st.sList + 1
    let r2 := listMin st.colList
    let r3 := listMax st.colList
    let r4 := listMin st.rList
    let r5 := listMax st.rList
    if 1 < (r1 - r0) * (r3 - r2) * (r5 - r4) then
      some ⟨(r0, r1, r2, r3, r4, r5), st.mask⟩
    else none

/-- The per-image aggregation of DicomReader.create_masks: every named
structure is processed independently and only contributing structures
reach mask_reduced. -/
def createMasksImage (fill : Fill) (imgSops : List String)
    (slices rows cols : ℕ) (corner spacing : Vec3)
    (rois : List (String × List RtContour)) : List (String × MaskResult) :=
  rois.filterMap fun nr =>
    (createMasksRoi fill imgSops slices rows cols corner spacing nr.2).map
      fun m => (nr.1, m)

/-- The roi_info row written by DicomReader.create_masks: the names of the
contributing structures, or the None placeholders when mask_reduced is
empty. -/
def roiInfoNames (fill : Fill) (imgSops : List String)
    (slices rows cols : ℕ) (corner spacing : Vec3)
    (rois : List (String × List RtContour)) : Option (List String) :=
  match createMasksImage fill imgSops slices rows cols corner spacing rois with
  | [] => none
  | reduced => some (reduced.map fun nr => nr.1)

/-! Concrete inputs used by counterexamples and witnesses. -/

/-- A through-plane direction pointing along z, the axial case. -/
def exDir : Vec3 := ⟨0, 0, 1⟩

/-- Slice positions with two enlarged gaps: projected z values 0, 1, 4, 5,
8, so the gaps are 1, 3, 1, 3. -/
def exPositions2 : List Vec3 :=
  [⟨0, 0, 0⟩, ⟨0, 0, 1⟩, ⟨0, 0, 4⟩, ⟨0, 0, 5⟩, ⟨0, 0, 8⟩]

/-- Slice positions with one enlarged final gap: projected z values 0, 1,
2, 3, 6, so the gaps are 1, 1, 1, 3. -/
def exPositions1 : List Vec3 :=
  [⟨0, 0, 0⟩, ⟨0, 0, 1⟩, ⟨0, 0, 2⟩, ⟨0, 0, 3⟩, ⟨0, 0, 6⟩]

/-- A five slice bookkeeping state fed to the skipped-slice scan. -/
def exState : RepairState :=
  ⟨none, none, 0, ["f0", "f1", "f2", "f3", "f4"],
    ["s0", "s1", "s2", "s3", "s4"],
    [[[10]], [[20]], [[30]], [[40]], [[50]]]⟩

/-! Helper lemmas shared by the claim theorems. -/

/-- Length of a python insert: always one more, the index clips. -/
theorem pyInsert_length {α : Type} (n : ℕ) (a : α) (l : List α) :
    (pyInsert n a l).length = l.length + 1 := by
  simp [pyInsert]
  omega

/-- Telescoping of a constant projected gap over a nonempty list. -/
theorem projTelescope (f : Vec3 → ℚ) (d : ℚ) :
    ∀ (xs : List Vec3) (x : Vec3),
      (∀ i : ℕ, i + 1 < (x :: xs).length →
        f ((x :: xs).getD (i + 1) v0) - f ((x :: xs).getD i v0) = d) →
      f ((x :: xs).getLastD v0) - f x = (xs.length : ℚ) * d := by
  intro xs
  induction xs with
  | nil =>
    intro x _
    simp [List.getLastD]
  | cons y ys ih =>
    intro x h
    have h0 : f y - f x = d := by
      have := h 0 (by simp)
      simpa using this
    have tail := ih y (fun i hi => by
      have := h (i + 1) (by simpa using Nat.succ_lt_succ hi)
      simpa using this)
    have hlast : (x :: y :: ys).getLastD v0 = (y :: ys).getLastD v0 := by
      simp [List.getLastD_eq_getLast?]
    rw [hlast]
    have : f ((y :: ys).getLastD v0) - f x =
        (f ((y :: ys).getLastD v0) - f y) + (f y - f x) := by ring
    rw [this, tail, h0]
    simp only [List.length_cons]
    push_cast
    ring

/-! Claim theorems. -/

/-- C10: Image3d._compute_plane returns Sagittal exactly when the x sum of
absolute orientation components is strictly smaller than both the y and z
sums, Coronal exactly when the y sum is strictly smaller than both the x
and z sums, and Axial in every other case, ties included. -/
theorem C10_plane_tie_break (o : Orient6) :
    (computePlane o = "Sagittal" ↔
      axisSumX o < axisSumY o ∧ axisSumX o < axisSumZ o) ∧
    (computePlane o = "Coronal" ↔
      axisSumY o < axisSumX o ∧ axisSumY o < axisSumZ o) ∧
    (computePlane o = "Axial" ↔
      ¬(axisSumX o < axisSumY o ∧ axisSumX o < axisSumZ o) ∧
      ¬(axisSumY o < axisSumX o ∧ axisSumY o < axisSumZ o)) := by
  unfold computePlane
  by_cases h1 : axisSumX o < axisSumY o ∧ axisSumX o < axisSumZ o <;>
    by_cases h2 : axisSumY o < axisSumX o ∧ axisSumY o < axisSumZ o
  · exact absurd h2.1 (not_lt.mpr (le_of_lt h1.1))
  · simp [h1, h2]
  · simp [h1, h2]
  · simp [h1, h2]

/-- C5: the 4x4 matrix of Image3d._compute_image_matrix has the row
direction, the column direction and their cross product as the rows of
its top-left 3x3 block, and the pixel-to-position map of Data/image.py
built from those rows sends pixel index (0, 0, 0) to the origin. -/
theorem C5_rotation_block_and_origin (o : Orient6) (sp origin : Vec3) :
    (imageMatrix o origin 0 0 = (rowDir o).x ∧
     imageMatrix o origin 0 1 = (rowDir o).y ∧
     imageMatrix o origin 0 2 = (rowDir o).z) ∧
    (imageMatrix o origin 1 0 = (colDir o).x ∧
     imageMatrix o origin 1 1 = (colDir o).y ∧
     imageMatrix o origin 1 2 = (colDir o).z) ∧
    (imageMatrix o origin 2 0 = (cross (rowDir o) (colDir o)).x ∧
     imageMatrix o origin 2 1 = (cross (rowDir o) (colDir o)).y ∧
     imageMatrix o origin 2 2 = (cross (rowDir o) (colDir o)).z) ∧
    pixelToPosition (rotationRows o) sp origin v0 = origin := by
  refine ⟨⟨rfl, rfl, rfl⟩, ⟨rfl, rfl, rfl⟩, ⟨rfl, rfl, rfl⟩, ?_⟩
  obtain ⟨ox, oy, oz⟩ := origin
  simp only [pixelToPosition, rotationRows, addV, smulV, v0]
  simp only [Vec3.mk.injEq]
  refine ⟨by ring, by ring, by ring⟩

/-- C8: the through-plane spacing refinement of
Image3d._compute_image_matrix picks the first-to-second projected gap when
it deviates from the uniform gap by more than 0.01 and the uniform gap
otherwise; in particular a constant projected gap always resolves to
(last - first) / (count - 1). -/
theorem C8_spacing_refinement (o : Orient6) (ips : List Vec3) (th : ℚ)
    (h2 : 2 ≤ ips.length) :
    ((|(projPos o (ips.getD 1 v0) - projPos o (ips.getD 0 v0)) -
        (projPos o (ips.getLastD v0) - projPos o (ips.getD 0 v0)) /
          ((ips.length : ℚ) - 1)| > 1 / 100) →
      spacingRefined o ips th =
        projPos o (ips.getD 1 v0) - projPos o (ips.getD 0 v0)) ∧
    (¬(|(projPos o (ips.getD 1 v0) - projPos o (ips.getD 0 v0)) -
        (projPos o (ips.getLastD v0) - projPos o (ips.getD 0 v0)) /
          ((ips.length : ℚ) - 1)| > 1 / 100) →
      spacingRefined o ips th =
        (projPos o (ips.getLastD v0) - projPos o (ips.getD 0 v0)) /
          ((ips.length : ℚ) - 1)) ∧
    (∀ d : ℚ, (∀ i : ℕ, i + 1 < ips.length →
        projPos o (ips.getD (i + 1) v0) - projPos o (ips.getD i v0) = d) →
      spacingRefined o ips th =
        (projPos o (ips.getLastD v0) - projPos o (ips.getD 0 v0)) /
          ((ips.length : ℚ) - 1)) := by
  have hlen : 1 < ips.length := h2
  refine ⟨?_, ?_, ?_⟩
  · intro h
    unfold spacingRefined
    rw [if_pos hlen, if_pos h]
  · intro h
    unfold spacingRefined
    rw [if_pos hlen, if_neg h]
  · intro d hd
    obtain ⟨x, xs⟩ : ∃ x xs, ips = x :: xs := by
      cases ips with
      | nil => simp at hlen
      | cons a l => exact ⟨a, l, rfl⟩
    obtain ⟨xs, rfl⟩ := xs
    have hsecond : projPos o ((x :: xs).getD 1 v0) -
        projPos o ((x :: xs).getD 0 v0) = d := hd 0 (by simpa using hlen)
    have htel : projPos o ((x :: xs).getLastD v0) - projPos o x =
        ((xs.length : ℚ)) * d := projTelescope (projPos o) d xs x hd
    have hx0 : (x :: xs).getD 0 v0 = x := rfl
    have hne : ((x :: xs).length : ℚ) - 1 ≠ 0 := by
      have : (2 : ℚ) ≤ ((x :: xs).length : ℚ) := by exact_mod_cast h2
      intro hcon
      nlinarith
    have hcount : ((x :: xs).length : ℚ) - 1 = (xs.length : ℚ) := by
      simp only [List.length_cons]
      push_cast
      ring
    have huni : (projPos o ((x :: xs).getLastD v0) -
        projPos o ((x :: xs).getD 0 v0)) / (((x :: xs).length : ℚ) - 1) = d := by
      rw [hx0, htel, hcount]
      have hxs : (xs.length : ℚ) ≠ 0 := by
        rw [hcount] at hne
        exact hne
      field_simp
    unfold spacingRefined
    rw [if_pos hlen, if_neg]
    rw [hsecond, huni]
    simp

/-- C7: when one physical axis has the strictly smallest sum of absolute
row and column orientation components, the sort of
DicomReader.separate_modalities_and_images picks exactly that axis and
returns a permutation of the sub-group ordered by ascending position
along it. -/
theorem C7_dominant_axis_sort (o : Orient6) (slices : List SliceRec)
    (a : Fin 3) (hmin : ∀ b : Fin 3, b ≠ a → axisSum o a < axisSum o b) :
    dominantAxis o = a ∧
    (sortSlices o slices).Perm slices ∧
    (sortSlices o slices).Pairwise
      (fun s t => posComp a s.pos ≤ posComp a t.pos) := by
  have hda : dominantAxis o = a := by
    fin_cases a
    · have h1 := hmin 1 (by decide)
      have h2 := hmin 2 (by decide)
      simp only [axisSum] at h1 h2
      unfold dominantAxis
      rw [if_pos ⟨h1, h2⟩]
      rfl
    · have h0 := hmin 0 (by decide)
      have h2 := hmin 2 (by decide)
      simp only [axisSum] at h0 h2
      have hc1 : ¬(axisSumX o < axisSumY o ∧ axisSumX o < axisSumZ o) := by
        rintro ⟨hxy, -⟩
        exact absurd hxy (not_lt.mpr (le_of_lt h0))
      unfold dominantAxis
      rw [if_neg hc1, if_pos ⟨h0, h2⟩]
      rfl
    · have h0 := hmin 0 (by decide)
      have h1 := hmin 1 (by decide)
      simp only [axisSum] at h0 h1
      have hc1 : ¬(axisSumX o < axisSumY o ∧ axisSumX o < axisSumZ o) := by
        rintro ⟨-, hxz⟩
        exact absurd hxz (not_lt.mpr (le_of_lt h0))
      have hc2 : ¬(axisSumY o < axisSumX o ∧ axisSumY o < axisSumZ o) := by
        rintro ⟨-, hyz⟩
        exact absurd hyz (not_lt.mpr (le_of_lt h1))
      unfold dominantAxis
      rw [if_neg hc1, if_neg hc2]
      rfl
  refine ⟨hda, ?_, ?_⟩
  · unfold sortSlices
    exact List.mergeSort_perm _ _
  · unfold sortSlices
    simp only [hda]
    have hp := @List.sorted_mergeSort SliceRec
      (fun s t => decide (posComp a s.pos ≤ posComp a t.pos))
      (fun s t u hst htu => by
        simp only [decide_eq_true_eq] at *
        exact le_trans hst htu)
      (fun s t => by
        simp only [Bool.or_eq_true, decide_eq_true_eq]
        exact le_total _ _)
      slices
    exact hp.imp (fun h => by simpa using h)

/-- C7 witness: the axial axis is strictly dominant for the identity
orientation and the two sample slices come back sorted along z. -/
theorem C7_dominant_axis_sort_witness :
    (∀ b : Fin 3, b ≠ 2 →
      axisSum ⟨1, 0, 0, 0, 1, 0⟩ 2 < axisSum ⟨1, 0, 0, 0, 1, 0⟩ b) ∧
    (dominantAxis ⟨1, 0, 0, 0, 1, 0⟩ = 2 ∧
     (sortSlices ⟨1, 0, 0, 0, 1, 0⟩
        [⟨⟨0, 0, 5⟩, 0⟩, ⟨⟨0, 0, 1⟩, 1⟩]).Perm
        [⟨⟨0, 0, 5⟩, 0⟩, ⟨⟨0, 0, 1⟩, 1⟩] ∧
     (sortSlices ⟨1, 0, 0, 0, 1, 0⟩
        [⟨⟨0, 0, 5⟩, 0⟩, ⟨⟨0, 0, 1⟩, 1⟩]).Pairwise
        (fun s t => posComp 2 s.pos ≤ posComp 2 t.pos)) := by
  have hyp : ∀ b : Fin 3, b ≠ 2 →
      axisSum ⟨1, 0, 0, 0, 1, 0⟩ 2 < axisSum ⟨1, 0, 0, 0, 1, 0⟩ b := by
    intro b hb
    fin_cases b
    · simp [axisSum, axisSumX, axisSumZ]
    · simp [axisSum, axisSumY, axisSumZ]
    · simp at hb
  exact ⟨hyp, C7_dominant_axis_sort ⟨1, 0, 0, 0, 1, 0⟩
    [⟨⟨0, 0, 5⟩, 0⟩, ⟨⟨0, 0, 1⟩, 1⟩] 2 hyp⟩

/-- C8 witness: a uniform four slice stack with unit gaps along z takes
the uniform branch, and its constant gap certifies the quotient form. -/
theorem C8_spacing_refinement_witness :
    2 ≤ ([⟨0, 0, 0⟩, ⟨0, 0, 1⟩, ⟨0, 0, 2⟩, ⟨0, 0, 3⟩] : List Vec3).length ∧
    (∀ i : ℕ, i + 1 < ([⟨0, 0, 0⟩, ⟨0, 0, 1⟩, ⟨0, 0, 2⟩,
        ⟨0, 0, 3⟩] : List Vec3).length →
      projPos ⟨1, 0, 0, 0, 1, 0⟩
          (([⟨0, 0, 0⟩, ⟨0, 0, 1⟩, ⟨0, 0, 2⟩, ⟨0, 0, 3⟩] :
            List Vec3).getD (i + 1) v0) -
        projPos ⟨1, 0, 0, 0, 1, 0⟩
          (([⟨0, 0, 0⟩, ⟨0, 0, 1⟩, ⟨0, 0, 2⟩, ⟨0, 0, 3⟩] :
            List Vec3).getD i v0) = 1) ∧
    spacingRefined ⟨1, 0, 0, 0, 1, 0⟩
        [⟨0, 0, 0⟩, ⟨0, 0, 1⟩, ⟨0, 0, 2⟩, ⟨0, 0, 3⟩] 5 =
      (projPos ⟨1, 0, 0, 0, 1, 0⟩
          (([⟨0, 0, 0⟩, ⟨0, 0, 1⟩, ⟨0, 0, 2⟩, ⟨0, 0, 3⟩] :
            List Vec3).getLastD v0) -
        projPos ⟨1, 0, 0, 0, 1, 0⟩
          (([⟨0, 0, 0⟩, ⟨0, 0, 1⟩, ⟨0, 0, 2⟩, ⟨0, 0, 3⟩] :
            List Vec3).getD 0 v0)) /
        ((([⟨0, 0, 0⟩, ⟨0, 0, 1⟩, ⟨0, 0, 2⟩, ⟨0, 0, 3⟩] :
          List Vec3).length : ℚ) - 1) := by
  have hlen : 2 ≤ ([⟨0, 0, 0⟩, ⟨0, 0, 1⟩, ⟨0, 0, 2⟩, ⟨0, 0, 3⟩] :
      List Vec3).length := by decide
  have hgap : ∀ i : ℕ, i + 1 < ([⟨0, 0, 0⟩, ⟨0, 0, 1⟩, ⟨0, 0, 2⟩,
      ⟨0, 0, 3⟩] : List Vec3).length →
      projPos ⟨1, 0, 0, 0, 1, 0⟩
          (([⟨0, 0, 0⟩, ⟨0, 0, 1⟩, ⟨0, 0, 2⟩, ⟨0, 0, 3⟩] :
            List Vec3).getD (i + 1) v0) -
        projPos ⟨1, 0, 0, 0, 1, 0⟩
          (([⟨0, 0, 0⟩, ⟨0, 0, 1⟩, ⟨0, 0, 2⟩, ⟨0, 0, 3⟩] :
            List Vec3).getD i v0) = 1 := by
    intro i hi
    have hi3 : i < 3 := by
      have := hi
      simp only [List.length_cons, List.length_nil] at this
      omega
    interval_cases i <;>
      norm_num [projPos, sliceDirection, cross, dot, rowDir, colDir, v0]
  exact ⟨hlen, hgap,
    (C8_spacing_refinement ⟨1, 0, 0, 0, 1, 0⟩
      [⟨0, 0, 0⟩, ⟨0, 0, 1⟩, ⟨0, 0, 2⟩, ⟨0, 0, 3⟩] 5 hlen).2.2 1 hgap⟩

/-- Counting lemma for the skipped-slice scan: each loop pass that meets
the deviation test bumps dimensions[2] by one and inserts one filepath. -/
theorem foldl_repairStep_count (sd : Vec3) (ips : List Vec3) :
    ∀ (l : List ℕ) (s : RepairState),
      ((l.foldl (repairStep sd ips) s).dims2 =
        s.dims2 + ((l.filter fun ii => decide (deviates sd ips ii)).length : ℤ)) ∧
      ((l.foldl (repairStep sd ips) s).filepaths.length =
        s.filepaths.length +
          (l.filter fun ii => decide (deviates sd ips ii)).length) := by
  intro l
  induction l with
  | nil => simp
  | cons a t ih =>
    intro s
    rw [List.foldl_cons, List.filter_cons]
    by_cases h : deviates sd ips a
    · rw [repairStep, if_pos h, if_pos (by simpa using h)]
      refine ⟨?_, ?_⟩
      · rw [(ih (applyRepair s a)).1]
        simp only [applyRepair, List.length_cons]
        push_cast
        ring
      · rw [(ih (applyRepair s a)).2]
        simp only [applyRepair, List.length_cons, pyInsert_length]
        omega
    · rw [repairStep, if_neg h, if_neg (by simpa using h)]
      exact ih s

/-- C2 amended: every gap after the first whose size deviates from the
first-observed gap by more than 0.01 runs the repair body, so the number
of inserted slices equals the number of deviating gaps; the scan has no
early exit after the first repair. -/
theorem C2_every_deviating_gap_inserts (sd : Vec3) (ips : List Vec3)
    (s : RepairState) :
    (findSkippedSlices sd ips s).dims2 =
      s.dims2 + ((deviatingIndices sd ips).length : ℤ) ∧
    (findSkippedSlices sd ips s).filepaths.length =
      s.filepaths.length + (deviatingIndices sd ips).length := by
  unfold findSkippedSlices deviatingIndices
  exact foldl_repairStep_count sd ips _ s

/-- C2 counterexample: on the stack with gaps 1, 3, 1, 3 the scan repairs
both deviating gaps, inserting two slices and two placeholder paths, so
the claim that only the first deviating gap triggers an insertion fails. -/
theorem C2_counterexample :
    (findSkippedSlices exDir exPositions2 exState).dims2 = 2 ∧
    (findSkippedSlices exDir exPositions2 exState).filepaths =
      ["f0", "f1", "", "f2", "", "f3", "f4"] ∧
    (findSkippedSlices exDir exPositions2 exState).array =
      [[[10]], [[20]], [[25]], [[30]], [[35]], [[40]], [[50]]] := by
  have d0 : ¬ deviates exDir exPositions2 0 := by
    simp [deviates]
  have d1 : deviates exDir exPositions2 1 := by
    refine ⟨by norm_num, ?_⟩
    norm_num [slicePos, dot, exDir, exPositions2, v0]
  have d2 : ¬ deviates exDir exPositions2 2 := by
    rintro ⟨-, habs⟩
    norm_num [slicePos, dot, exDir, exPositions2, v0] at habs
  have d3 : deviates exDir exPositions2 3 := by
    refine ⟨by norm_num, ?_⟩
    norm_num [slicePos, dot, exDir, exPositions2, v0]
  have hrange : List.range (exPositions2.length - 1) = [0, 1, 2, 3] := by
    decide
  unfold findSkippedSlices
  rw [hrange]
  simp only [List.foldl_cons, List.foldl_nil, repairStep, if_neg d0,
    if_pos d1, if_neg d2, if_pos d3]
  simp only [applyRepair, exState, pyInsert, interpSlice, meanSlice]
  refine ⟨by decide, by decide, by decide⟩

/-- The skipped-slice scan leaves the state unchanged over a stretch of
loop indices at which the deviation test fails. -/
theorem foldl_repairStep_noop (sd : Vec3) (ips : List Vec3) :
    ∀ (l : List ℕ) (s : RepairState),
      (∀ x ∈ l, ¬ deviates sd ips x) →
      l.foldl (repairStep sd ips) s = s := by
  intro l
  induction l with
  | nil => intro s _; rfl
  | cons a t ih =>
    intro s h
    rw [List.foldl_cons, repairStep, if_neg (h a (List.mem_cons_self a t))]
    exact ih s fun x hx => h x (List.mem_cons_of_mem a hx)

/-- C3: when exactly one gap, the one between slices i and i+1, meets the
deviation test, Image3d._find_skipped_slices flags the volume Skipped,
records insertion index i+1, bumps dimensions[2] by one, inserts the
placeholder path and SOP at that index, and inserts at the same index the
slice whose samples average the two neighboring slices (the exact mean
truncated toward zero by the int16 cast). -/
theorem C3_single_gap_postcondition (sd : Vec3) (ips : List Vec3)
    (s : RepairState) (i : ℕ)
    (hrange : i < ips.length - 1)
    (hdev : deviates sd ips i)
    (huniq : ∀ j, j < ips.length - 1 → deviates sd ips j → j = i)
    (hi : i + 1 < s.array.length) :
    findSkippedSlices sd ips s =
      { unverified := some "Skipped"
        skippedSlice := some (i + 1)
        dims2 := s.dims2 + 1
        filepaths := pyInsert (i + 1) "" s.filepaths
        sops := pyInsert (i + 1) "1.123456789" s.sops
        array := pyInsert (i + 1)
          (meanSlice (s.array.getD i []) (s.array.getD (i + 1) []))
          s.array } := by
  have hsplit : ips.length - 1 = (i + 1) + (ips.length - 1 - (i + 1)) := by
    omega
  unfold findSkippedSlices
  rw [hsplit, List.range_add, List.foldl_append, List.range_succ,
    List.foldl_append]
  have hpre : (List.range i).foldl (repairStep sd ips) s = s := by
    refine foldl_repairStep_noop sd ips _ s fun x hx hdx => ?_
    have hxi : x < i := List.mem_range.mp hx
    have := huniq x (by omega) hdx
    omega
  rw [hpre]
  have hstep : List.foldl (repairStep sd ips) s [i] = applyRepair s i := by
    rw [List.foldl_cons, List.foldl_nil, repairStep, if_pos hdev]
  rw [hstep]
  have hpost : ((List.range (ips.length - 1 - (i + 1))).map
      (fun x => (i + 1) + x)).foldl (repairStep sd ips) (applyRepair s i) =
      applyRepair s i := by
    refine foldl_repairStep_noop sd ips _ _ fun x hx hdx => ?_
    obtain ⟨y, hy, rfl⟩ := List.mem_map.mp hx
    have hyr : y < ips.length - 1 - (i + 1) := List.mem_range.mp hy
    have := huniq (i + 1 + y) (by omega) hdx
    omega
  rw [hpost]
  have harr : interpSlice s.array i =
      meanSlice (s.array.getD i []) (s.array.getD (i + 1) []) := by
    have h1 : i < s.array.length := by omega
    have hd1 : s.array.drop i = s.array[i] :: s.array.drop (i + 1) :=
      List.drop_eq_getElem_cons h1
    have hd2 : s.array.drop (i + 1) = s.array[i + 1] :: s.array.drop (i + 2) :=
      List.drop_eq_getElem_cons hi
    rw [interpSlice, hd1, hd2, List.getD_eq_getElem s.array [] h1,
      List.getD_eq_getElem s.array [] hi]
  rw [applyRepair, harr]

/-- C3 witness: on the stack with gaps 1, 1, 1, 3 only the last gap
deviates, and the repairer inserts the truncated mean slice at index 4. -/
theorem C3_single_gap_postcondition_witness :
    (3 < exPositions1.length - 1) ∧
    deviates exDir exPositions1 3 ∧
    (∀ j, j < exPositions1.length - 1 → deviates exDir exPositions1 j →
      j = 3) ∧
    (3 + 1 < exState.array.length) ∧
    findSkippedSlices exDir exPositions1 exState =
      { unverified := some "Skipped"
        skippedSlice := some (3 + 1)
        dims2 := exState.dims2 + 1
        filepaths := pyInsert (3 + 1) "" exState.filepaths
        sops := pyInsert (3 + 1) "1.123456789" exState.sops
        array := pyInsert (3 + 1)
          (meanSlice (exState.array.getD 3 []) (exState.array.getD (3 + 1) []))
          exState.array } := by
  have hrange : 3 < exPositions1.length - 1 := by decide
  have hdev : deviates exDir exPositions1 3 := by
    refine ⟨by norm_num, ?_⟩
    norm_num [slicePos, dot, exDir, exPositions1, v0]
  have huniq : ∀ j, j < exPositions1.length - 1 →
      deviates exDir exPositions1 j → j = 3 := by
    intro j hj hd
    have hj4 : j < 4 := by simpa [exPositions1] using hj
    interval_cases j
    · exact absurd hd.1 (by norm_num)
    · exfalso
      have := hd.2
      norm_num [slicePos, dot, exDir, exPositions1, v0] at this
    · exfalso
      have := hd.2
      norm_num [slicePos, dot, exDir, exPositions1, v0] at this
    · rfl
  have hi : 3 + 1 < exState.array.length := by decide
  exact ⟨hrange, hdev, huniq, hi,
    C3_single_gap_postcondition exDir exPositions1 exState 3 hrange hdev
      huniq hi⟩

/-- C4: with unit-length, mutually orthogonal row and column direction
cosines and nonzero spacings, the position-to-pixel map of Data/image.py
inverts the pixel-to-position map exactly on every pixel index, both maps
being built from the rotation rows of Image3d._compute_image_matrix, the
spacing and the origin. -/
theorem C4_pixel_physical_roundtrip (o : Orient6) (sp origin p : Vec3)
    (hr : dot (rowDir o) (rowDir o) = 1)
    (hc : dot (colDir o) (colDir o) = 1)
    (hrc : dot (rowDir o) (colDir o) = 0)
    (hx : sp.x ≠ 0) (hy : sp.y ≠ 0) (hz : sp.z ≠ 0) :
    positionToPixel (rotationRows o) sp origin
      (pixelToPosition (rotationRows o) sp origin p) = p := by
  obtain ⟨a0, a1, a2, a3, a4, a5⟩ := o
  obtain ⟨sx, sy, sz⟩ := sp
  obtain ⟨gx, gy, gz⟩ := origin
  obtain ⟨px, py, pz⟩ := p
  simp only [dot, rowDir, colDir] at hr hc hrc
  simp only [positionToPixel, pixelToPosition, rotationRows, rowDir, colDir,
    sliceDirection, cross, dot, divV, addV, smulV] at *
  simp only [Vec3.mk.injEq]
  refine ⟨?_, ?_, ?_⟩
  · field_simp
    linear_combination (sx * px) * hr + (sy * py) * hrc
  · field_simp
    linear_combination (sx * px) * hrc + (sy * py) * hc
  · field_simp
    linear_combination (sz * pz) * ((a3 * a3 + a4 * a4 + a5 * a5) * hr +
      hc - (a0 * a3 + a1 * a4 + a2 * a5) * hrc)

/-- C4 witness: the identity orientation with spacings 1, 2, 4 round
trips the pixel index (1, 2, 3). -/
theorem C4_pixel_physical_roundtrip_witness :
    dot (rowDir ⟨1, 0, 0, 0, 1, 0⟩) (rowDir ⟨1, 0, 0, 0, 1, 0⟩) = 1 ∧
    dot (colDir ⟨1, 0, 0, 0, 1, 0⟩) (colDir ⟨1, 0, 0, 0, 1, 0⟩) = 1 ∧
    dot (rowDir ⟨1, 0, 0, 0, 1, 0⟩) (colDir ⟨1, 0, 0, 0, 1, 0⟩) = 0 ∧
    (Vec3.mk 1 2 4).x ≠ 0 ∧ (Vec3.mk 1 2 4).y ≠ 0 ∧
    (Vec3.mk 1 2 4).z ≠ 0 ∧
    positionToPixel (rotationRows ⟨1, 0, 0, 0, 1, 0⟩) ⟨1, 2, 4⟩ ⟨5, 6, 7⟩
      (pixelToPosition (rotationRows ⟨1, 0, 0, 0, 1, 0⟩) ⟨1, 2, 4⟩ ⟨5, 6, 7⟩
        ⟨1, 2, 3⟩) = ⟨1, 2, 3⟩ := by
  have hr : dot (rowDir ⟨1, 0, 0, 0, 1, 0⟩) (rowDir ⟨1, 0, 0, 0, 1, 0⟩) = 1 := by
    norm_num [dot, rowDir]
  have hc : dot (colDir ⟨1, 0, 0, 0, 1, 0⟩) (colDir ⟨1, 0, 0, 0, 1, 0⟩) = 1 := by
    norm_num [dot, colDir]
  have hrc : dot (rowDir ⟨1, 0, 0, 0, 1, 0⟩) (colDir ⟨1, 0, 0, 0, 1, 0⟩) = 0 := by
    norm_num [dot, rowDir, colDir]
  have hx : (Vec3.mk 1 2 4).x ≠ 0 := by norm_num
  have hy : (Vec3.mk 1 2 4).y ≠ 0 := by norm_num
  have hz : (Vec3.mk 1 2 4).z ≠ 0 := by norm_num
  exact ⟨hr, hc, hrc, hx, hy, hz,
    C4_pixel_physical_roundtrip ⟨1, 0, 0, 0, 1, 0⟩ ⟨1, 2, 4⟩ ⟨5, 6, 7⟩
      ⟨1, 2, 3⟩ hr hc hrc hx hy hz⟩

/-- C6: the code-bug evidence for the patient-position correction of
Image3d._compute_origin. On a prone (HFP) volume whose pixel array exists
(only_tags false) the array comes back unrotated even though its 180
degree rotation differs, because the rotation sits under "if
self.only_tags"; and with only_tags true, where the guard is taken, the
array attribute does not exist and the access fails. -/
theorem C6_rotation_guard_inverted :
    (computeOrigin false (some "HFP") ⟨0, 0, 0⟩ ⟨1, 1, 1⟩ (2, 2, 1)
        ⟨1, 0, 0, 0, 1, 0⟩ (some [[[1, 2], [3, 4]]])).toOption.map
      OriginState.array = some (some [[[1, 2], [3, 4]]]) ∧
    rot3d 2 [[[1, 2], [3, 4]]] ≠ [[[1, 2], [3, 4]]] ∧
    computeOrigin true (some "HFP") ⟨0, 0, 0⟩ ⟨1, 1, 1⟩ (2, 2, 1)
      ⟨1, 0, 0, 0, 1, 0⟩ none = .error "AttributeError" := by
  refine ⟨?_, by decide, ?_⟩
  · simp only [computeOrigin, rotateIfOnlyTags]
    norm_num
    rw [if_neg (by decide)]
    exact ⟨_, rfl, rfl⟩
  · simp [computeOrigin, rotateIfOnlyTags]

/-- C1 amended: ContourToMask.compute_mask accumulates polygons landing on
one slice by summation and then binarizes, so its Mask holds only 0 and 1
and two overlapping polygons on one slice leave 1, the pre-binarization
count there being 2; the create_masks path is treated separately. -/
theorem C1_compute_mask_binarizes (fill : Fill) (cs : List (List Vec3))
    (s r c : ℤ) (c1 c2 : List Vec3)
    (h1 : pyInt (c1.headD v0).z = s) (h2 : pyInt (c2.headD v0).z = s)
    (hf1 : fill (closedPoly c1) r c = true)
    (hf2 : fill (closedPoly c2) r c = true) :
    (computeMask fill cs s r c = 0 ∨ computeMask fill cs s r c = 1) ∧
    (maskAccum fill [c1, c2]).hold s r c = 2 ∧
    computeMask fill [c1, c2] s r c = 1 := by
  have hacc : (maskAccum fill [c1, c2]).hold s r c = 2 := by
    simp only [maskAccum, List.foldl_cons, List.foldl_nil, maskStep, h1, h2,
      hf1, hf2]
    simp [hf1, hf2]
  refine ⟨?_, hacc, ?_⟩
  · unfold computeMask
    by_cases h : 0 < (maskAccum fill cs).hold s r c
    · right
      rw [if_pos h]
    · left
      rw [if_neg h]
  · unfold computeMask
    rw [hacc]
    norm_num

/-- C1 witness: two overlapping unit squares on slice 0 under a fill that
covers the probed pixel; the Mask value is 1 and the raw count is 2. -/
theorem C1_compute_mask_binarizes_witness :
    (pyInt (([⟨0, 0, 0⟩, ⟨2, 0, 0⟩, ⟨2, 2, 0⟩, ⟨0, 2, 0⟩] :
      List Vec3).headD v0).z = 0) ∧
    (pyInt (([⟨1, 1, 0⟩, ⟨3, 1, 0⟩, ⟨3, 3, 0⟩, ⟨1, 3, 0⟩] :
      List Vec3).headD v0).z = 0) ∧
    ((fun _ _ _ => true : Fill)
      (closedPoly [⟨0, 0, 0⟩, ⟨2, 0, 0⟩, ⟨2, 2, 0⟩, ⟨0, 2, 0⟩]) 1 1 = true) ∧
    ((fun _ _ _ => true : Fill)
      (closedPoly [⟨1, 1, 0⟩, ⟨3, 1, 0⟩, ⟨3, 3, 0⟩, ⟨1, 3, 0⟩]) 1 1 = true) ∧
    ((computeMask (fun _ _ _ => true) [] 0 1 1 = 0 ∨
      computeMask (fun _ _ _ => true) [] 0 1 1 = 1) ∧
     (maskAccum (fun _ _ _ => true)
        [[⟨0, 0, 0⟩, ⟨2, 0, 0⟩, ⟨2, 2, 0⟩, ⟨0, 2, 0⟩],
         [⟨1, 1, 0⟩, ⟨3, 1, 0⟩, ⟨3, 3, 0⟩, ⟨1, 3, 0⟩]]).hold 0 1 1 = 2 ∧
     computeMask (fun _ _ _ => true)
        [[⟨0, 0, 0⟩, ⟨2, 0, 0⟩, ⟨2, 2, 0⟩, ⟨0, 2, 0⟩],
         [⟨1, 1, 0⟩, ⟨3, 1, 0⟩, ⟨3, 3, 0⟩, ⟨1, 3, 0⟩]] 0 1 1 = 1) := by
  have h1 : pyInt (([⟨0, 0, 0⟩, ⟨2, 0, 0⟩, ⟨2, 2, 0⟩, ⟨0, 2, 0⟩] :
      List Vec3).headD v0).z = 0 := by
    simp [pyInt]
  have h2 : pyInt (([⟨1, 1, 0⟩, ⟨3, 1, 0⟩, ⟨3, 3, 0⟩, ⟨1, 3, 0⟩] :
      List Vec3).headD v0).z = 0 := by
    simp [pyInt]
  exact ⟨h1, h2, rfl, rfl,
    C1_compute_mask_binarizes (fun _ _ _ => true) [] 0 1 1
      [⟨0, 0, 0⟩, ⟨2, 0, 0⟩, ⟨2, 2, 0⟩, ⟨0, 2, 0⟩]
      [⟨1, 1, 0⟩, ⟨3, 1, 0⟩, ⟨3, 3, 0⟩, ⟨1, 3, 0⟩] h1 h2 rfl rfl⟩

/-- C1 counterexample: DicomReader.create_masks stores the accumulated
mask without binarization, so two overlapping polygons referencing the
same slice leave the value 2 in the stored Mask, refuting the claim that
every rasterized Mask holds only 0 and 1. -/
theorem C1_counterexample :
    ((createMasksRoi (fun _ _ _ => true) ["A"] 1 2 2 v0 ⟨1, 1, 1⟩
        [⟨4, [⟨0, 0, 0⟩, ⟨1, 0, 0⟩, ⟨1, 1, 0⟩, ⟨0, 1, 0⟩], "A"⟩,
         ⟨4, [⟨0, 0, 0⟩, ⟨1, 0, 0⟩, ⟨1, 1, 0⟩, ⟨0, 1, 0⟩], "A"⟩]).map
      fun m => newMaskVal m 0 0 0) = some 2 := by
  rfl

/-- The ContourSequence loop of create_masks ignores a stretch of
contours that all carry fewer than two points. -/
theorem foldl_roiStep_noop (fill : Fill) (imgSops : List String)
    (slices rows cols : ℕ) (corner spacing : Vec3) :
    ∀ (cs : List RtContour) (st : RoiAcc),
      (∀ c ∈ cs, c.numberOfContourPoints ≤ 1) →
      cs.foldl (roiStep fill imgSops slices rows cols corner spacing) st = st := by
  intro cs
  induction cs with
  | nil => intro st _; rfl
  | cons a t ih =>
    intro st h
    rw [List.foldl_cons, roiStep,
      if_neg (by have := h a (List.mem_cons_self a t); omega)]
    exact ih st fun c hc => h c (List.mem_cons_of_mem a hc)

/-- C9: in DicomReader.create_masks a polygon with fewer than two points
contributes nothing, a structure whose polygons are all degenerate yields
no mask and no region metadata, and dropping such a structure leaves the
output for every other structure of the image unchanged. -/
theorem C9_degenerate_policy :
    (∀ (fill : Fill) (imgSops : List String) (slices rows cols : ℕ)
        (corner spacing : Vec3) (c : RtContour) (cs : List RtContour)
        (st : RoiAcc), c.numberOfContourPoints ≤ 1 →
        (c :: cs).foldl
          (roiStep fill imgSops slices rows cols corner spacing) st =
        cs.foldl (roiStep fill imgSops slices rows cols corner spacing) st) ∧
    (∀ (fill : Fill) (imgSops : List String) (slices rows cols : ℕ)
        (corner spacing : Vec3) (contours : List RtContour),
        (∀ c ∈ contours, c.numberOfContourPoints ≤ 1) →
        createMasksRoi fill imgSops slices rows cols corner spacing
          contours = none) ∧
    (∀ (fill : Fill) (imgSops : List String) (slices rows cols : ℕ)
        (corner spacing : Vec3) (bad : String × List RtContour)
        (others : List (String × List RtContour)),
        (∀ c ∈ bad.2, c.numberOfContourPoints ≤ 1) →
        createMasksImage fill imgSops slices rows cols corner spacing
            (bad :: others) =
          createMasksImage fill imgSops slices rows cols corner spacing
            others ∧
        roiInfoNames fill imgSops slices rows cols corner spacing
            (bad :: others) =
          roiInfoNames fill imgSops slices rows cols corner spacing others) := by
  have hroi : ∀ (fill : Fill) (imgSops : List String)
      (slices rows cols : ℕ) (corner spacing : Vec3)
      (contours : List RtContour),
      (∀ c ∈ contours, c.numberOfContourPoints ≤ 1) →
      createMasksRoi fill imgSops slices rows cols corner spacing
        contours = none := by
    intro fill imgSops slices rows cols corner spacing contours h
    unfold createMasksRoi roiAccum
    rw [foldl_roiStep_noop fill imgSops slices rows cols corner spacing
      contours _ h]
  refine ⟨?_, hroi, ?_⟩
  · intro fill imgSops slices rows cols corner spacing c cs st h
    rw [List.foldl_cons, roiStep, if_neg (by omega)]
  · intro fill imgSops slices rows cols corner spacing bad others h
    have himg : createMasksImage fill imgSops slices rows cols corner
        spacing (bad :: others) =
        createMasksImage fill imgSops slices rows cols corner spacing
          others := by
      unfold createMasksImage
      rw [List.filterMap_cons,
        hroi fill imgSops slices rows cols corner spacing bad.2 h]
      rfl
    refine ⟨himg, ?_⟩
    unfold roiInfoNames
    rw [himg]

/-- C9 witness: a single-point contour is skipped by the loop, a
structure holding only that contour yields none, and removing that
structure from an image with one further structure changes nothing. -/
theorem C9_degenerate_policy_witness :
    ((⟨1, [⟨0, 0, 0⟩], "A"⟩ : RtContour).numberOfContourPoints ≤ 1) ∧
    ([(⟨1, [⟨0, 0, 0⟩], "A"⟩ : RtContour)].foldl
        (roiStep (fun _ _ _ => true) ["A"] 1 1 1 v0 ⟨1, 1, 1⟩)
        ⟨fun _ => false, fun _ _ _ => 0, [], [], []⟩ =
      ([] : List RtContour).foldl
        (roiStep (fun _ _ _ => true) ["A"] 1 1 1 v0 ⟨1, 1, 1⟩)
        ⟨fun _ => false, fun _ _ _ => 0, [], [], []⟩) ∧
    (createMasksRoi (fun _ _ _ => true) ["A"] 1 1 1 v0 ⟨1, 1, 1⟩
        [⟨1, [⟨0, 0, 0⟩], "A"⟩] = none) ∧
    (createMasksImage (fun _ _ _ => true) ["A"] 1 1 1 v0 ⟨1, 1, 1⟩
        [("bad", [⟨1, [⟨0, 0, 0⟩], "A"⟩]),
         ("good", [⟨4, [⟨0, 0, 0⟩, ⟨1, 0, 0⟩, ⟨1, 1, 0⟩, ⟨0, 1, 0⟩], "A"⟩])] =
      createMasksImage (fun _ _ _ => true) ["A"] 1 1 1 v0 ⟨1, 1, 1⟩
        [("good", [⟨4, [⟨0, 0, 0⟩, ⟨1, 0, 0⟩, ⟨1, 1, 0⟩, ⟨0, 1, 0⟩], "A"⟩])] ∧
     roiInfoNames (fun _ _ _ => true) ["A"] 1 1 1 v0 ⟨1, 1, 1⟩
        [("bad", [⟨1, [⟨0, 0, 0⟩], "A"⟩]),
         ("good", [⟨4, [⟨0, 0, 0⟩, ⟨1, 0, 0⟩, ⟨1, 1, 0⟩, ⟨0, 1, 0⟩], "A"⟩])] =
      roiInfoNames (fun _ _ _ => true) ["A"] 1 1 1 v0 ⟨1, 1, 1⟩
        [("good", [⟨4, [⟨0, 0, 0⟩, ⟨1, 0, 0⟩, ⟨1, 1, 0⟩, ⟨0, 1, 0⟩], "A"⟩])]) := by
  have hmem : ∀ c ∈ [(⟨1, [⟨0, 0, 0⟩], "A"⟩ : RtContour)],
      c.numberOfContourPoints ≤ 1 := by
    intro c hc
    rw [List.mem_singleton] at hc
    subst hc
    decide
  refine ⟨by decide, ?_, ?_, ?_⟩
  · exact C9_degenerate_policy.1 (fun _ _ _ => true) ["A"] 1 1 1 v0
      ⟨1, 1, 1⟩ ⟨1, [⟨0, 0, 0⟩], "A"⟩ []
      ⟨fun _ => false, fun _ _ _ => 0, [], [], []⟩ (by decide)
  · exact C9_degenerate_policy.2.1 (fun _ _ _ => true) ["A"] 1 1 1 v0
      ⟨1, 1, 1⟩ [⟨1, [⟨0, 0, 0⟩], "A"⟩] hmem
  · exact C9_degenerate_policy.2.2 (fun _ _ _ => true) ["A"] 1 1 1 v0
      ⟨1, 1, 1⟩ ("bad", [⟨1, [⟨0, 0, 0⟩], "A"⟩])
      [("good", [⟨4, [⟨0, 0, 0⟩, ⟨1, 0, 0⟩, ⟨1, 1, 0⟩, ⟨0, 1, 0⟩], "A"⟩])]
      hmem

end MIC
